import Mathlib

/-!
Shallow embedding of the content-generation orchestration engine
(`app/models/domain.py`, `app/services/content_workflow.py`,
`app/services/cache.py`, `app/services/ai_content_generation.py`)
together with theorems settling the specification claims about it.

Python floats are modelled as exact rationals (`ℚ`); `datetime.now()`
instants as natural-number seconds supplied explicitly to each
operation; Python dicts as insertion-ordered association lists;
collaborator calls (AI models, search backend) as explicit oracle
arguments.
-/

namespace Soup

/-! ### Lexicographic string order (Python `sorted` on code points) -/

/-- Lexicographic `≤` on code-point lists, the order Python's `sorted`
uses on strings (executable, unlike core `String.ltb`). -/
def charListLe : List Char → List Char → Bool
  | [], _ => true
  | _ :: _, [] => false
  | a :: as, b :: bs => if a < b then true else if b < a then false else charListLe as bs

/-- Lexicographic `≤` on strings. -/
def strLe (s t : String) : Prop := charListLe s.data t.data = true

instance : DecidableRel strLe := fun s t => by unfold strLe; infer_instance

/-! ### `app/models/domain.py` -/

/-- Render `q` rounded to two decimal places, modelling Python's
`f"{x:.2f}"` (the model rounds the exact rational; every score used in
the theorems below is exactly representable, so no rounding-mode
difference with binary floats arises). -/
def fmt2 (q : ℚ) : String :=
  let c : ℤ := round (q * 100)
  let sign := if c < 0 then "-" else ""
  let n : ℕ := c.natAbs
  sign ++ toString (n / 100) ++ "." ++
    (if n % 100 < 10 then "0" else "") ++ toString (n % 100)

/-- `Topic` (`domain.py:58-64`; the free-form `context` dict is omitted:
no modelled operation reads it). -/
structure Topic where
  keywords : List String
  category : String
  trend_score : ℚ
  deriving DecidableEq, Repr

/-- `Topic.hash` (`domain.py:66-69`):
`keywords_str = "_".join(sorted(self.keywords))` followed by
`f"{self.category}_{keywords_str}_{self.trend_score:.2f}"`. -/
def Topic.hash (t : Topic) : String :=
  let keywords_str := String.intercalate "_" (t.keywords.insertionSort strLe)
  t.category ++ "_" ++ keywords_str ++ "_" ++ fmt2 t.trend_score

/-- `Content` (`domain.py:114-122`). -/
structure Content where
  title : String
  introduction : String
  main_content : String
  conclusion : String
  key_insights : List String
  actionable_steps : List String
  deriving DecidableEq, Repr

/-- `Content.full_text` (`domain.py:124-126`). -/
def Content.full_text (c : Content) : String :=
  c.title ++ "\n\n" ++ c.introduction ++ "\n\n" ++ c.main_content ++ "\n\n" ++ c.conclusion

/-- `QualityMetrics` (`domain.py:133-140`). -/
structure QualityMetrics where
  readability_score : ℚ
  engagement_score : ℚ
  educational_value : ℚ
  actionability_score : ℚ
  originality_score : ℚ
  deriving DecidableEq, Repr

/-- `QualityMetrics.overall_score` (`domain.py:142-159`): fixed weighted
sum with weights 0.2 / 0.25 / 0.25 / 0.2 / 0.1. -/
def QualityMetrics.overall_score (m : QualityMetrics) : ℚ :=
  m.readability_score * (0.2 : ℚ) +
  m.engagement_score * (0.25 : ℚ) +
  m.educational_value * (0.25 : ℚ) +
  m.actionability_score * (0.2 : ℚ) +
  m.originality_score * (0.1 : ℚ)

/-- `ArticleStatus` (`domain.py:20-27`). -/
inductive ArticleStatus where
  | draft | generated | quality_check | approved | published | archived
  deriving DecidableEq, Repr

/-- `Article.approve_for_publishing` (`domain.py:192-200`), given that
quality metrics are present: raises `ValueError` when
`overall_score < 8.0` (the threshold 8.0 is hard-coded in the domain
model), otherwise sets status to `APPROVED`. -/
def approve_for_publishing (m : QualityMetrics) : Except String ArticleStatus :=
  if m.overall_score < 8 then
    .error "Quality score below threshold"
  else
    .ok .approved

/-! ### `app/services/content_workflow.py` -/

/-- The dedup key of `_analyze_trending_topics`
(`content_workflow.py:150`): `tuple(sorted(topic.keywords))` — the
sorted keyword list only, the category is not part of the key. -/
def topicKey (t : Topic) : List String := t.keywords.insertionSort strLe

/-- The dedup loop of `_analyze_trending_topics`
(`content_workflow.py:146-153`): walk the candidate list keeping the
first topic seen for each key. -/
def dedupLoop : List Topic → List (List String) → List Topic
  | [], _ => []
  | t :: ts, seen =>
      if topicKey t ∈ seen then dedupLoop ts seen
      else t :: dedupLoop ts (topicKey t :: seen)

/-- Deduplication of candidate topics as performed by
`_analyze_trending_topics` (`content_workflow.py:144-153`). -/
def dedupTopics (l : List Topic) : List Topic := dedupLoop l []

/-- The sort relation of `unique_topics.sort(key=..., reverse=True)`
(`content_workflow.py:156`): descending trend score. -/
def byTrendDesc (a b : Topic) : Prop := b.trend_score ≤ a.trend_score

instance : DecidableRel byTrendDesc := fun a b => by unfold byTrendDesc; infer_instance

/-- `self.daily_stats` of `ContentGenerationWorkflow`
(`content_workflow.py:57-63`). -/
structure Stats where
  topics_analyzed : ℕ
  content_generated : ℕ
  quality_checks : ℕ
  cache_hits : ℕ
  total_cost : ℚ
  deriving DecidableEq, Repr

/-- The fresh statistics of `ContentGenerationWorkflow.__init__`. -/
def Stats.init : Stats := ⟨0, 0, 0, 0, 0⟩

/-- Pure part of `_analyze_trending_topics`
(`content_workflow.py:134-161`) applied to the topic lists returned by
the two collaborators: dedup, sort by descending trend score (Python's
stable sort), return the top 5. -/
def analyzeTrendingTopics (kbTopics collTopics : List Topic) : List Topic :=
  ((dedupTopics (kbTopics ++ collTopics)).insertionSort byTrendDesc).take 5

/-- Outcome of `_ensure_quality` when no exception is raised. -/
structure QualityOutcome where
  status : ArticleStatus
  metrics : QualityMetrics
  assess_calls : ℕ
  stats : Stats
  deriving DecidableEq, Repr

/-- The tail of `_ensure_quality` (`content_workflow.py:450-463`): if
the (current) overall score is at or above the threshold, call
`approve_for_publishing` (which may raise), else leave the article in
`QUALITY_CHECK`. -/
def finishQuality (quality_threshold : ℚ) (m : QualityMetrics) (calls : ℕ)
    (st : Stats) : Except String QualityOutcome :=
  if quality_threshold ≤ m.overall_score then
    match approve_for_publishing m with
    | .error e => .error e
    | .ok s => .ok ⟨s, m, calls, st⟩
  else
    .ok ⟨.quality_check, m, calls, st⟩

/-- `_ensure_quality` (`content_workflow.py:404-463`) on an article that
has content, with the assessor modelled as an oracle giving the
`QualityMetrics` of the n-th `quality_assessor.assess` call. Mirrors
the code: assess once and bump `quality_checks`; if the score is below
threshold and `quality_checks <= max_regeneration_attempts`, regenerate
exactly once (cost `+0.010`) and assess again; finally run
`finishQuality`. -/
def ensureQuality (quality_threshold : ℚ) (max_regeneration_attempts : ℕ)
    (stats : Stats) (assess : ℕ → QualityMetrics) : Except String QualityOutcome :=
  let m₀ := assess 0
  let stats₁ := { stats with quality_checks := stats.quality_checks + 1 }
  if m₀.overall_score < quality_threshold then
    if stats₁.quality_checks ≤ max_regeneration_attempts then
      let m₁ := assess 1
      let stats₂ := { stats₁ with quality_checks := stats₁.quality_checks + 1,
                                  total_cost := stats₁.total_cost + (0.010 : ℚ) }
      finishQuality quality_threshold m₁ 2 stats₂
    else finishQuality quality_threshold m₀ 1 stats₁
  else finishQuality quality_threshold m₀ 1 stats₁

/-- `WorkflowResult` (`content_workflow.py:26-33`); the optional
`article` field is omitted (no claim inspects it). `metrics = none`
models the dataclass default `metrics=None`. -/
structure WorkflowResult where
  success : Bool
  error_message : Option String
  metrics : Option Stats
  cost_estimate : ℚ
  deriving DecidableEq, Repr

/-- `run_daily_generation` (`content_workflow.py:65-132`). Step 1
(`_analyze_trending_topics`) is modelled inline on the topic lists the
two collaborators return; the rest of the `try` block (steps 2-7) is
abstracted as `pipeline`, which receives the selected topics and the
stats mutated so far and either returns the final stats or raises an
exception carrying its message together with the stats at the moment of
the raise (Python mutates `self.daily_stats` in place, so the `except`
branch reports the partially updated stats). The empty-topics early
return (`content_workflow.py:73-77`) builds a `WorkflowResult` with only
`success` and `error_message`, leaving `metrics` at its `None`
default. -/
def run_daily_generation (stats₀ : Stats) (kbTopics collTopics : List Topic)
    (pipeline : List Topic → Stats → Except (String × Stats) Stats) : WorkflowResult :=
  let unique := dedupTopics (kbTopics ++ collTopics)
  let stats₁ := { stats₀ with topics_analyzed := unique.length }
  let trending := (unique.insertionSort byTrendDesc).take 5
  if trending.isEmpty then
    { success := false, error_message := some "No trending topics found",
      metrics := none, cost_estimate := 0 }
  else
    match pipeline trending stats₁ with
    | .ok stats₂ =>
        { success := true, error_message := none, metrics := some stats₂,
          cost_estimate := stats₂.total_cost }
    | .error (e, statsE) =>
        { success := false, error_message := some e, metrics := some statsE,
          cost_estimate := 0 }

/-! ### `SimilarityGate`: `_check_existing_content`
(`content_workflow.py:224-262`) -/

/-- `SearchResult` (`app/services/knowledge_base.py:23-32`), restricted
to the fields `_check_existing_content` reads. -/
structure SearchResult where
  content_id : String
  title : String
  content : String
  deriving DecidableEq, Repr

/-- Python `str.lower()`, character by character (the inputs in this
development are ASCII, where Python and `Char.toLower` agree). -/
def strToLower (s : String) : String := ⟨s.data.map Char.toLower⟩

/-- Helper for `pySplit`: accumulate the current word (reversed) while
walking the characters. -/
def wordsAux : List Char → List Char → List String
  | [], acc => if acc.isEmpty then [] else [String.mk acc.reverse]
  | c :: cs, acc =>
      if c.isWhitespace then
        if acc.isEmpty then wordsAux cs []
        else String.mk acc.reverse :: wordsAux cs []
      else wordsAux cs (c :: acc)

/-- Python `str.split()`: split on whitespace runs, dropping empty
pieces. -/
def pySplit (s : String) : List String := wordsAux s.data []

/-- `set(result.content.lower().split()[:100])`
(`content_workflow.py:239`). -/
def resultKeywordSet (r : SearchResult) : Finset String :=
  ((pySplit (strToLower r.content)).take 100).toFinset

/-- `set(keyword.lower() for keyword in topic.keywords)`
(`content_workflow.py:240`). -/
def topicKeywordSet (t : Topic) : Finset String :=
  (t.keywords.map strToLower).toFinset

/-- The lexical similarity of `_check_existing_content`
(`content_workflow.py:242-243`): keyword overlap over topic keyword
count, `0` for an empty keyword set. -/
def similarity (t : Topic) (r : SearchResult) : ℚ :=
  let tk := topicKeywordSet t
  if tk.card = 0 then 0
  else ((resultKeywordSet r ∩ tk).card : ℚ) / tk.card

/-- `_check_existing_content` (`content_workflow.py:224-262`) given the
knowledge-base search results: return the reuse `Content` built from
the first result whose similarity strictly exceeds the threshold
(`if similarity > self.similarity_threshold`), else `none` (fresh
generation). -/
def checkExistingContent (similarity_threshold : ℚ) (t : Topic)
    (search_results : List SearchResult) : Option Content :=
  match search_results.find? (fun r => decide (similarity_threshold < similarity t r)) with
  | none => none
  | some r => some
      { title := r.title, introduction := r.content.take 300,
        main_content := r.content, conclusion := "",
        key_insights := [], actionable_steps := [] }

/-! ### `app/services/cache.py` `MemoryBackend` -/

/-- `CacheEntry` (`cache.py:19-28`); `size_bytes` (a `len(str(value))`
byte count) and the unused `metadata` dict are omitted. -/
structure CacheEntry (V : Type) where
  data : V
  created_at : ℕ
  expires_at : Option ℕ
  hit_count : ℕ
  deriving DecidableEq, Repr

/-- Python dict lookup `self.cache.get(key)` on the insertion-ordered
association list. -/
def lookupKey {V : Type} (c : List (String × CacheEntry V)) (k : String) :
    Option (CacheEntry V) :=
  (c.find? (fun p => p.1 == k)).map (·.2)

/-- Python `del self.cache[key]`: drop the (unique) binding of `k`. -/
def removeKey {V : Type} : List (String × CacheEntry V) → String →
    List (String × CacheEntry V)
  | [], _ => []
  | p :: rest, k => if p.1 = k then rest else p :: removeKey rest k

/-- Python dict assignment `self.cache[key] = entry`: replace in place
if present, else append. -/
def setEntry {V : Type} : List (String × CacheEntry V) → String → CacheEntry V →
    List (String × CacheEntry V)
  | [], k, e => [(k, e)]
  | p :: rest, k, e => if p.1 = k then (k, e) :: rest else p :: setEntry rest k e

/-- `entry.hit_count += 1` for the binding of `k`. -/
def bumpHit {V : Type} : List (String × CacheEntry V) → String →
    List (String × CacheEntry V)
  | [], _ => []
  | p :: rest, k =>
      if p.1 = k then (p.1, { p.2 with hit_count := p.2.hit_count + 1 }) :: rest
      else p :: bumpHit rest k

/-- `min(self.cache.keys(), key=lambda k: self.cache[k].created_at)`
(`cache.py:251`): the first binding with minimal `created_at`. -/
def minCreated {V : Type} : List (String × CacheEntry V) →
    Option (String × CacheEntry V)
  | [] => none
  | p :: rest =>
      match minCreated rest with
      | none => some p
      | some q => if q.2.created_at < p.2.created_at then some q else some p

/-- `MemoryBackend` (`cache.py:200-252`): the hot in-memory tier. -/
structure MemoryBackend (V : Type) where
  cache : List (String × CacheEntry V)
  max_size : ℕ
  deriving Repr

/-- `MemoryBackend._evict_lru` (`cache.py:245-252`): on a non-empty
cache, remove the entry with the oldest `created_at`. -/
def MemoryBackend.evict_lru {V : Type} (s : MemoryBackend V) : MemoryBackend V :=
  match minCreated s.cache with
  | none => s
  | some p => { s with cache := removeKey s.cache p.1 }

/-- `MemoryBackend.get` (`cache.py:207-220`) at instant `now`: a present
entry whose `expires_at` lies strictly in the past
(`datetime.now() > entry.expires_at`) is purged and reported absent;
otherwise the hit count is bumped and the value returned. -/
def MemoryBackend.get {V : Type} (s : MemoryBackend V) (key : String) (now : ℕ) :
    Option V × MemoryBackend V :=
  match lookupKey s.cache key with
  | none => (none, s)
  | some e =>
      match e.expires_at with
      | some exp =>
          if exp < now then (none, { s with cache := removeKey s.cache key })
          else (some e.data, { s with cache := bumpHit s.cache key })
      | none => (some e.data, { s with cache := bumpHit s.cache key })

/-- `MemoryBackend.set` (`cache.py:222-243`) at instant `now`: evict
when at capacity and the key is new, then write the entry;
`expires_at = now + ttl` when `ttl` is truthy (nonzero), no expiry
otherwise (Python `if ttl`). -/
def MemoryBackend.set {V : Type} (s : MemoryBackend V) (key : String) (value : V)
    (ttl : ℕ) (now : ℕ) : MemoryBackend V :=
  let s₁ :=
    if s.max_size ≤ s.cache.length ∧ (lookupKey s.cache key).isNone = true
    then s.evict_lru else s
  let entry := CacheEntry.mk value now (if ttl = 0 then none else some (now + ttl)) 0
  { s₁ with cache := setEntry s₁.cache key entry }

/-- The key set of the hot tier. -/
def MemoryBackend.keys {V : Type} (s : MemoryBackend V) : List String :=
  s.cache.map (·.1)

/-! ### `app/services/ai_content_generation.py` `QualityAssessor` -/

/-- `QualityAssessor._assess_actionability`
(`ai_content_generation.py:335-343`): a local heuristic on the number of
actionable steps, no model call. -/
def assessActionability (c : Content) : ℚ :=
  if 3 ≤ c.actionable_steps.length then 9
  else if 1 ≤ c.actionable_steps.length then 7
  else 5

/-- The `common_phrases` list of `_assess_originality`
(`ai_content_generation.py:348-351`). -/
def commonPhrases : List String :=
  ["financial freedom", "passive income", "compound interest",
   "diversify your portfolio", "emergency fund"]

/-- Python `phrase in text`: substring containment. -/
def containsSub (s pat : String) : Bool := decide (List.IsInfix pat.data s.data)

/-- `QualityAssessor._assess_originality`
(`ai_content_generation.py:345-358`): a local heuristic counting common
phrases, no model call. -/
def assessOriginality (text : String) : ℚ :=
  let common_count := (commonPhrases.filter (fun p => containsSub (strToLower text) p)).length
  min 10 (max 5 (10 - common_count * (0.5 : ℚ)))

/-- `QualityAssessor.assess` (`ai_content_generation.py:248-267`). The
three model-backed dimensions are modelled by oracle replies: `some x`
when the model call succeeded and its reply parsed as the number `x`,
`none` when the call raised or the reply was non-numeric — in which case
the `except` branch of each `_assess_*` helper substitutes the fixed
default `7.0`. Actionability and originality are computed locally. -/
def QualityAssessor.assess (c : Content)
    (readabilityReply engagementReply educationalReply : Option ℚ) : QualityMetrics :=
  { readability_score := readabilityReply.getD 7,
    engagement_score := engagementReply.getD 7,
    educational_value := educationalReply.getD 7,
    actionability_score := assessActionability c,
    originality_score := assessOriginality c.full_text }

/-! ### Order properties of the string comparator -/

theorem charListLe_total : ∀ xs ys, charListLe xs ys = true ∨ charListLe ys xs = true
  | [], _ => by left; rfl
  | _ :: _, [] => by right; rfl
  | x :: xs, y :: ys => by
    rcases lt_trichotomy x y with h | h | h
    · left; simp [charListLe, h]
    · subst h
      rcases charListLe_total xs ys with h2 | h2 <;> [left; right] <;>
        simp [charListLe, h2, lt_irrefl]
    · right; simp [charListLe, h]

theorem charListLe_antisymm :
    ∀ xs ys, charListLe xs ys = true → charListLe ys xs = true → xs = ys
  | [], [], _, _ => rfl
  | [], _ :: _, _, h2 => by simp [charListLe] at h2
  | _ :: _, [], h1, _ => by simp [charListLe] at h1
  | x :: xs, y :: ys, h1, h2 => by
    rcases lt_trichotomy x y with h | h | h
    · simp [charListLe, h, asymm h] at h2
    · subst h
      simp only [charListLe, lt_irrefl, if_false] at h1 h2
      exact congrArg (x :: ·) (charListLe_antisymm xs ys h1 h2)
    · simp [charListLe, h, asymm h] at h1

theorem charListLe_trans :
    ∀ xs ys zs, charListLe xs ys = true → charListLe ys zs = true →
      charListLe xs zs = true
  | [], _, _, _, _ => rfl
  | _ :: _, [], _, h1, _ => by simp [charListLe] at h1
  | _ :: _, _ :: _, [], _, h2 => by simp [charListLe] at h2
  | x :: xs, y :: ys, z :: zs, h1, h2 => by
    simp only [charListLe] at h1 h2 ⊢
    rcases lt_trichotomy x y with hxy | hxy | hxy
    · rcases lt_trichotomy y z with hyz | hyz | hyz
      · simp [lt_trans hxy hyz]
      · subst hyz; simp [hxy]
      · simp [hyz, asymm hyz] at h2
    · subst hxy
      rcases lt_trichotomy x z with hxz | hxz | hxz
      · simp [hxz]
      · subst hxz
        simp only [lt_irrefl, if_false] at h1 h2 ⊢
        exact charListLe_trans _ _ _ h1 h2
      · simp [hxz, asymm hxz] at h2
    · simp [hxy, asymm hxy] at h1

instance : IsTotal String strLe := ⟨fun a b => charListLe_total a.data b.data⟩

instance : IsTrans String strLe :=
  ⟨fun a b c h1 h2 => charListLe_trans a.data b.data c.data h1 h2⟩

instance : IsAntisymm String strLe :=
  ⟨fun a b h1 h2 => by
    cases a; cases b
    exact congrArg String.mk (charListLe_antisymm _ _ h1 h2)⟩

/-- Sorting with `strLe` is invariant under permutation of the input. -/
theorem insertionSort_strLe_perm_eq {l₁ l₂ : List String} (h : l₁.Perm l₂) :
    l₁.insertionSort strLe = l₂.insertionSort strLe :=
  List.eq_of_perm_of_sorted
    (((List.perm_insertionSort strLe l₁).trans h).trans
      (List.perm_insertionSort strLe l₂).symm)
    (List.sorted_insertionSort strLe l₁) (List.sorted_insertionSort strLe l₂)

/-- Appending to a fixed string on the left is injective. -/
theorem strAppend_left_cancel {p x y : String} (h : p ++ x = p ++ y) : x = y := by
  cases p with
  | mk dp =>
    cases x with
    | mk dx =>
      cases y with
      | mk dy =>
        have hd : dp ++ dx = dp ++ dy := congrArg String.data h
        exact congrArg String.mk (List.append_cancel_left hd)

/-! ### Claim theorems -/

/-- C1 (counterexample): `Topic.hash` is *not* independent of
`trend_score`: two topics with the same keywords and category but trend
scores 9.0 and 6.0 have different fingerprints, because the hash embeds
`f"{trend_score:.2f}"`. -/
theorem C1_counterexample :
    Topic.hash ⟨["bitcoin"], "finance", 9⟩ ≠ Topic.hash ⟨["bitcoin"], "finance", 6⟩ := by
  have h9 : round ((9 : ℚ) * 100) = 900 := by norm_num
  have h6 : round ((6 : ℚ) * 100) = 600 := by norm_num
  simp only [Topic.hash, fmt2, h9, h6]
  decide

/-- C1 (amended): `Topic.hash` is unchanged under any permutation of the
keywords list (category and score fixed), but it does depend on
`trend_score`: topics equal except for the score have different hashes
whenever the two-decimal renderings of the scores differ. -/
theorem C1_fingerprint :
    (∀ t₁ t₂ : Topic, t₁.keywords.Perm t₂.keywords → t₁.category = t₂.category →
      t₁.trend_score = t₂.trend_score → t₁.hash = t₂.hash) ∧
    (∀ t₁ t₂ : Topic, t₁.keywords = t₂.keywords → t₁.category = t₂.category →
      fmt2 t₁.trend_score ≠ fmt2 t₂.trend_score → t₁.hash ≠ t₂.hash) := by
  constructor
  · intro t₁ t₂ hperm hcat hscore
    unfold Topic.hash
    rw [hcat, hscore, insertionSort_strLe_perm_eq hperm]
  · intro t₁ t₂ hkw hcat hfmt heq
    unfold Topic.hash at heq
    rw [hkw, hcat] at heq
    exact hfmt (strAppend_left_cancel heq)

/-- C1 (witness for the amended theorem at concrete inputs). -/
theorem C1_fingerprint_witness :
    Topic.hash ⟨["b", "a"], "f", 9⟩ = Topic.hash ⟨["a", "b"], "f", 9⟩ ∧
    Topic.hash ⟨["a"], "f", 9⟩ ≠ Topic.hash ⟨["a"], "f", 6⟩ := by
  constructor
  · exact C1_fingerprint.1 ⟨["b", "a"], "f", 9⟩ ⟨["a", "b"], "f", 9⟩ (by decide) rfl rfl
  · apply C1_fingerprint.2 ⟨["a"], "f", 9⟩ ⟨["a"], "f", 6⟩ rfl rfl
    have h9 : round ((9 : ℚ) * 100) = 900 := by norm_num
    have h6 : round ((6 : ℚ) * 100) = 600 := by norm_num
    simp only [fmt2, h9, h6]
    decide

/-- C9 (counterexample): for sub-scores `(8, 9, 7, 6, 10)` the overall
score is `7.8`, not `7.65` as the claim states (the spec's own
arithmetic `0.2*8 + 0.25*9 + 0.25*7 + 0.2*6 + 0.1*10` evaluates
to `7.8`). -/
theorem C9_counterexample :
    (QualityMetrics.mk 8 9 7 6 10).overall_score = 7.8 ∧
    (QualityMetrics.mk 8 9 7 6 10).overall_score ≠ 7.65 := by
  constructor <;> norm_num [QualityMetrics.overall_score]

/-- C9 (amended): `overall_score` is the fixed weighted sum
`0.2·readability + 0.25·engagement + 0.25·educational +
0.2·actionability + 0.1·originality`; sub-scores `(10,10,10,10,10)`
give `10.0`, `(0,0,0,0,0)` give `0.0`, and `(8,9,7,6,10)` give `7.8`. -/
theorem C9_weighted_score :
    (∀ m : QualityMetrics, m.overall_score =
      0.2 * m.readability_score + 0.25 * m.engagement_score +
      0.25 * m.educational_value + 0.2 * m.actionability_score +
      0.1 * m.originality_score) ∧
    (QualityMetrics.mk 10 10 10 10 10).overall_score = 10 ∧
    (QualityMetrics.mk 0 0 0 0 0).overall_score = 0 ∧
    (QualityMetrics.mk 8 9 7 6 10).overall_score = 7.8 := by
  refine ⟨fun m => by unfold QualityMetrics.overall_score; ring, ?_, ?_, ?_⟩ <;>
    norm_num [QualityMetrics.overall_score]

/-- C10: `QualityAssessor.assess` always yields a complete
`QualityMetrics`: each model-backed dimension (readability, engagement,
educational value) equals the model's numeric reply when one is
obtained and falls back to the fixed default `7.0` when the call fails
or the reply is non-numeric, while actionability and originality are
computed by the local heuristics, independent of the model replies. -/
theorem C10_assessor_fallback :
    ∀ (c : Content) (rR rE rEd : Option ℚ),
      (QualityAssessor.assess c none none none).readability_score = 7 ∧
      (QualityAssessor.assess c none none none).engagement_score = 7 ∧
      (QualityAssessor.assess c none none none).educational_value = 7 ∧
      (QualityAssessor.assess c rR rE rEd).actionability_score = assessActionability c ∧
      (QualityAssessor.assess c rR rE rEd).originality_score = assessOriginality c.full_text ∧
      (∀ x : ℚ, rR = some x → (QualityAssessor.assess c rR rE rEd).readability_score = x) ∧
      (∀ x : ℚ, rE = some x → (QualityAssessor.assess c rR rE rEd).engagement_score = x) ∧
      (∀ x : ℚ, rEd = some x → (QualityAssessor.assess c rR rE rEd).educational_value = x) := by
  intro c rR rE rEd
  refine ⟨rfl, rfl, rfl, rfl, rfl, ?_, ?_, ?_⟩ <;>
    { intro x hx; subst hx; rfl }

/-- C10 (witness at a concrete content and concrete replies). -/
theorem C10_assessor_fallback_witness :
    (QualityAssessor.assess ⟨"t", "i", "m", "c", [], ["s1", "s2", "s3"]⟩
      (some 5) (some 6) (some 4)).readability_score = 5 ∧
    (QualityAssessor.assess ⟨"t", "i", "m", "c", [], ["s1", "s2", "s3"]⟩
      (some 5) (some 6) (some 4)).engagement_score = 6 ∧
    (QualityAssessor.assess ⟨"t", "i", "m", "c", [], ["s1", "s2", "s3"]⟩
      (some 5) (some 6) (some 4)).educational_value = 4 ∧
    (QualityAssessor.assess ⟨"t", "i", "m", "c", [], []⟩ none none none).readability_score = 7 :=
  ⟨(C10_assessor_fallback ⟨"t", "i", "m", "c", [], ["s1", "s2", "s3"]⟩
      (some 5) (some 6) (some 4)).2.2.2.2.2.1 5 rfl,
   (C10_assessor_fallback ⟨"t", "i", "m", "c", [], ["s1", "s2", "s3"]⟩
      (some 5) (some 6) (some 4)).2.2.2.2.2.2.1 6 rfl,
   (C10_assessor_fallback ⟨"t", "i", "m", "c", [], ["s1", "s2", "s3"]⟩
      (some 5) (some 6) (some 4)).2.2.2.2.2.2.2 4 rfl,
   (C10_assessor_fallback ⟨"t", "i", "m", "c", [], []⟩ none none none).1⟩

/-- Evaluation of `ensureQuality` on a fresh run when both assessments
score below the threshold. -/
theorem ensureQuality_below (thr : ℚ) (assess : ℕ → QualityMetrics)
    (h0 : (assess 0).overall_score < thr) (h1 : (assess 1).overall_score < thr) :
    ensureQuality thr 2 Stats.init assess =
      .ok ⟨.quality_check, assess 1, 2, ⟨0, 0, 2, 0, 0.010⟩⟩ := by
  simp only [ensureQuality, Stats.init]
  rw [if_pos h0, if_pos (by norm_num : (0 : ℕ) + 1 ≤ 2)]
  simp only [finishQuality]
  rw [if_neg (not_le.mpr h1)]
  norm_num

/-- Evaluation of `ensureQuality` on a fresh run when the first
assessment meets the threshold but not the hard-coded 8.0. -/
theorem ensureQuality_raise (thr : ℚ) (assess : ℕ → QualityMetrics)
    (h0 : thr ≤ (assess 0).overall_score) (h8 : (assess 0).overall_score < 8) :
    ensureQuality thr 2 Stats.init assess = .error "Quality score below threshold" := by
  simp only [ensureQuality, Stats.init]
  rw [if_neg (not_lt.mpr h0)]
  simp only [finishQuality, approve_for_publishing]
  rw [if_pos h0, if_pos h8]

/-- Evaluation of `ensureQuality` on a fresh run when the first
assessment meets both the threshold and the hard-coded 8.0. -/
theorem ensureQuality_approve (thr : ℚ) (assess : ℕ → QualityMetrics)
    (h0 : thr ≤ (assess 0).overall_score) (h8 : 8 ≤ (assess 0).overall_score) :
    ensureQuality thr 2 Stats.init assess =
      .ok ⟨.approved, assess 0, 1, ⟨0, 0, 1, 0, 0⟩⟩ := by
  simp only [ensureQuality, Stats.init]
  rw [if_neg (not_lt.mpr h0)]
  simp only [finishQuality, approve_for_publishing]
  rw [if_pos h0, if_neg (not_lt.mpr h8)]

/-- C2 (counterexample): with the reference configuration (threshold
8.0, `max_regeneration_attempts = 2`) and an assessor that always
returns all-zero scores, a fresh run of `_ensure_quality` performs
exactly 2 assessment calls — not `maxRegenerationAttempts + 1 = 3` as
the claim states: the code regenerates at most once, it has no loop. -/
theorem C2_counterexample :
    ensureQuality 8 2 Stats.init (fun _ => ⟨0, 0, 0, 0, 0⟩) =
      .ok ⟨.quality_check, ⟨0, 0, 0, 0, 0⟩, 2, ⟨0, 0, 2, 0, 0.010⟩⟩ ∧
    (2 : ℕ) ≠ 2 + 1 := by
  refine ⟨?_, by norm_num⟩
  exact ensureQuality_below 8 (fun _ => ⟨0, 0, 0, 0, 0⟩)
    (by norm_num [QualityMetrics.overall_score])
    (by norm_num [QualityMetrics.overall_score])

/-- C2 (amended): for any assessor that always scores below the
threshold, a fresh run of the quality gate terminates (the code has no
loop: it regenerates at most once regardless of
`max_regeneration_attempts = 2`) after exactly 2 assessment calls and
leaves the article in the non-approved `QUALITY_CHECK` status, with one
regeneration cost of 0.010 accrued. -/
theorem C2_quality_gate_termination (thr : ℚ) (assess : ℕ → QualityMetrics)
    (h : ∀ n, (assess n).overall_score < thr) :
    ensureQuality thr 2 Stats.init assess =
      .ok ⟨.quality_check, assess 1, 2, ⟨0, 0, 2, 0, 0.010⟩⟩ :=
  ensureQuality_below thr assess (h 0) (h 1)

/-- C2 (witness for the amended theorem at a concrete assessor). -/
theorem C2_quality_gate_termination_witness :
    ensureQuality 8 2 Stats.init (fun _ => ⟨1, 1, 1, 1, 1⟩) =
      .ok ⟨.quality_check, ⟨1, 1, 1, 1, 1⟩, 2, ⟨0, 0, 2, 0, 0.010⟩⟩ :=
  C2_quality_gate_termination 8 (fun _ => ⟨1, 1, 1, 1, 1⟩)
    (fun _ => by norm_num [QualityMetrics.overall_score])

/-- C5 (counterexample): with a configured threshold of 7.0 and an
assessment whose overall score is 7.5 (at or above that threshold), the
transition raises `ValueError` instead of approving: the workflow
compares against the configured threshold but
`Article.approve_for_publishing` re-checks against a hard-coded 8.0. -/
theorem C5_counterexample :
    ensureQuality 7 2 Stats.init (fun _ => ⟨7.5, 7.5, 7.5, 7.5, 7.5⟩) =
      .error "Quality score below threshold" :=
  ensureQuality_raise 7 (fun _ => ⟨7.5, 7.5, 7.5, 7.5, 7.5⟩)
    (by norm_num [QualityMetrics.overall_score])
    (by norm_num [QualityMetrics.overall_score])

/-- C5 (amended): after assessment the article transitions to
`APPROVED` iff its overall score is at or above *both* the configured
threshold and the hard-coded 8.0 of `Article.approve_for_publishing`;
for `threshold ≤ score < 8.0` the transition raises `ValueError`, and
for `score < threshold` the article stays in `QUALITY_CHECK` (after the
single regeneration attempt). Stated for a constant-score assessor on a
fresh run. -/
theorem C5_approval (thr : ℚ) (m : QualityMetrics) :
    (thr ≤ m.overall_score → 8 ≤ m.overall_score →
      ensureQuality thr 2 Stats.init (fun _ => m) =
        .ok ⟨.approved, m, 1, ⟨0, 0, 1, 0, 0⟩⟩) ∧
    (thr ≤ m.overall_score → m.overall_score < 8 →
      ensureQuality thr 2 Stats.init (fun _ => m) =
        .error "Quality score below threshold") ∧
    (m.overall_score < thr →
      ensureQuality thr 2 Stats.init (fun _ => m) =
        .ok ⟨.quality_check, m, 2, ⟨0, 0, 2, 0, 0.010⟩⟩) := by
  exact ⟨fun h1 h2 => ensureQuality_approve thr (fun _ => m) h1 h2,
    fun h1 h2 => ensureQuality_raise thr (fun _ => m) h1 h2,
    fun h1 => ensureQuality_below thr (fun _ => m) h1 h1⟩

/-- C5 (witness for the amended theorem: approval at score 9 with
threshold 8.5, `ValueError` at score 7.5 with threshold 7, rejection at
score 0 with threshold 8). -/
theorem C5_approval_witness :
    ensureQuality 8.5 2 Stats.init (fun _ => ⟨9, 9, 9, 9, 9⟩) =
      .ok ⟨.approved, ⟨9, 9, 9, 9, 9⟩, 1, ⟨0, 0, 1, 0, 0⟩⟩ ∧
    ensureQuality 7 2 Stats.init (fun _ => ⟨7.5, 7.5, 7.5, 7.5, 7.5⟩) =
      .error "Quality score below threshold" ∧
    ensureQuality 8 2 Stats.init (fun _ => ⟨0, 0, 0, 0, 0⟩) =
      .ok ⟨.quality_check, ⟨0, 0, 0, 0, 0⟩, 2, ⟨0, 0, 2, 0, 0.010⟩⟩ :=
  ⟨(C5_approval 8.5 ⟨9, 9, 9, 9, 9⟩).1
      (by norm_num [QualityMetrics.overall_score])
      (by norm_num [QualityMetrics.overall_score]),
   (C5_approval 7 ⟨7.5, 7.5, 7.5, 7.5, 7.5⟩).2.1
      (by norm_num [QualityMetrics.overall_score])
      (by norm_num [QualityMetrics.overall_score]),
   (C5_approval 8 ⟨0, 0, 0, 0, 0⟩).2.2
      (by norm_num [QualityMetrics.overall_score])⟩

/-! ### Dedup lemmas (C3) -/

theorem dedupLoop_subset : ∀ (l : List Topic) (seen : List (List String)) (u : Topic),
    u ∈ dedupLoop l seen → u ∈ l
  | [], _, _, h => by simp [dedupLoop] at h
  | t :: ts, seen, u, h => by
    by_cases hk : topicKey t ∈ seen
    · simp only [dedupLoop, if_pos hk] at h
      exact List.mem_cons_of_mem t (dedupLoop_subset ts seen u h)
    · simp only [dedupLoop, if_neg hk, List.mem_cons] at h
      rcases h with rfl | h
      · exact List.mem_cons_self u ts
      · exact List.mem_cons_of_mem t (dedupLoop_subset ts _ u h)

/-- The keys of the dedup output are pairwise distinct and disjoint
from the already-seen key set. -/
theorem dedupLoop_keys (l : List Topic) : ∀ seen : List (List String),
    ((dedupLoop l seen).map topicKey).Nodup ∧
    ∀ k ∈ (dedupLoop l seen).map topicKey, k ∉ seen := by
  induction l with
  | nil => intro seen; simp [dedupLoop]
  | cons t ts ih =>
    intro seen
    by_cases hk : topicKey t ∈ seen
    · simpa [dedupLoop, hk] using ih seen
    · obtain ⟨hnd, hdisj⟩ := ih (topicKey t :: seen)
      constructor
      · simp only [dedupLoop, if_neg hk, List.map_cons, List.nodup_cons]
        exact ⟨fun hmem => (hdisj _ hmem) (List.mem_cons_self _ _), hnd⟩
      · intro k hkmem
        simp only [dedupLoop, if_neg hk, List.map_cons, List.mem_cons] at hkmem
        rcases hkmem with rfl | hkmem
        · exact hk
        · exact fun hks => (hdisj k hkmem) (List.mem_cons_of_mem _ hks)

/-- Every input topic's key is either already seen or appears among the
output keys. -/
theorem dedupLoop_covers (l : List Topic) : ∀ seen : List (List String), ∀ t ∈ l,
    topicKey t ∈ seen ∨ topicKey t ∈ (dedupLoop l seen).map topicKey := by
  induction l with
  | nil => simp
  | cons u ts ih =>
    intro seen t ht
    by_cases hk : topicKey u ∈ seen
    · rcases List.mem_cons.mp ht with rfl | ht'
      · left; exact hk
      · simpa [dedupLoop, hk] using ih seen t ht'
    · rcases List.mem_cons.mp ht with rfl | ht'
      · right; simp [dedupLoop, hk]
      · rcases ih (topicKey u :: seen) t ht' with hseen | hmem
        · rcases List.mem_cons.mp hseen with heq | hseen'
          · right
            simp only [dedupLoop, if_neg hk, List.map_cons, List.mem_cons]
            left; exact heq
          · left; exact hseen'
        · right
          simp only [dedupLoop, if_neg hk, List.map_cons, List.mem_cons]
          right; exact hmem

/-- Every retained topic is the first input topic bearing its key. -/
theorem dedupLoop_first (l : List Topic) : ∀ seen : List (List String),
    ∀ u ∈ dedupLoop l seen,
      topicKey u ∉ seen ∧
      ∃ pre post, l = pre ++ u :: post ∧ ∀ v ∈ pre, topicKey v ≠ topicKey u := by
  induction l with
  | nil => simp [dedupLoop]
  | cons t ts ih =>
    intro seen u hu
    by_cases hk : topicKey t ∈ seen
    · simp only [dedupLoop, if_pos hk] at hu
      obtain ⟨hnotin, pre, post, heq, hpre⟩ := ih seen u hu
      refine ⟨hnotin, t :: pre, post, by rw [heq]; rfl, ?_⟩
      intro v hv
      rcases List.mem_cons.mp hv with rfl | hv'
      · exact fun he => hnotin (he ▸ hk)
      · exact hpre v hv'
    · simp only [dedupLoop, if_neg hk, List.mem_cons] at hu
      rcases hu with rfl | hu'
      · exact ⟨hk, [], ts, rfl, by simp⟩
      · obtain ⟨hnotin, pre, post, heq, hpre⟩ := ih (topicKey t :: seen) u hu'
        have hne : topicKey t ≠ topicKey u :=
          fun he => hnotin (he ▸ List.mem_cons_self _ _)
        refine ⟨fun hs => hnotin (List.mem_cons_of_mem _ hs),
          t :: pre, post, by rw [heq]; rfl, ?_⟩
        intro v hv
        rcases List.mem_cons.mp hv with rfl | hv'
        · exact hne
        · exact hpre v hv'

/-- C3 (counterexample): two candidates with identical keywords and
category but scores 6 then 9 deduplicate to the *first-seen* candidate
with score 6, not to the maximum observed score 9 as the claim
states. -/
theorem C3_counterexample :
    dedupTopics [⟨["bitcoin"], "finance", 6⟩, ⟨["bitcoin"], "finance", 9⟩] =
      [⟨["bitcoin"], "finance", 6⟩] ∧ (6 : ℚ) ≠ 9 := by
  constructor
  · simp [dedupTopics, dedupLoop, topicKey]
  · norm_num

/-- C3 (amended): deduplication in `_analyze_trending_topics` keys on
the sorted keyword list only (the category is ignored) and keeps, for
each distinct key, the *first* candidate in input order together with
its (first-seen, not maximum) trend score: the output keys are pairwise
distinct, every input key appears, and each retained topic is the first
input element bearing its key. -/
theorem C3_dedup (l : List Topic) :
    ((dedupTopics l).map topicKey).Nodup ∧
    (∀ t ∈ l, topicKey t ∈ (dedupTopics l).map topicKey) ∧
    (∀ u ∈ dedupTopics l, ∃ pre post, l = pre ++ u :: post ∧
      ∀ v ∈ pre, topicKey v ≠ topicKey u) := by
  refine ⟨(dedupLoop_keys l []).1, fun t ht => ?_, fun u hu => (dedupLoop_first l [] u hu).2⟩
  rcases dedupLoop_covers l [] t ht with h | h
  · simp at h
  · exact h

/-- C3 (witness for the amended theorem at a concrete candidate
list). -/
theorem C3_dedup_witness :
    topicKey ⟨["a"], "c", 2⟩ ∈
      (dedupTopics [⟨["b"], "c", 1⟩, ⟨["a"], "c", 2⟩]).map topicKey ∧
    ((dedupTopics [⟨["b"], "c", 1⟩, ⟨["a"], "c", 2⟩]).map topicKey).Nodup :=
  ⟨(C3_dedup [⟨["b"], "c", 1⟩, ⟨["a"], "c", 2⟩]).2.1 ⟨["a"], "c", 2⟩ (by simp),
   (C3_dedup [⟨["b"], "c", 1⟩, ⟨["a"], "c", 2⟩]).1⟩

/-! ### Similarity lemmas (C4) -/

/-- When the topic's (lower-cased) keywords all occur among the first
100 words of the result body and the keyword set is non-empty, the
lexical similarity is exactly 1. -/
theorem similarity_eq_one {t : Topic} {r : SearchResult}
    (hne : topicKeywordSet t ≠ ∅) (hsub : topicKeywordSet t ⊆ resultKeywordSet r) :
    similarity t r = 1 := by
  unfold similarity
  have hcard : (topicKeywordSet t).card ≠ 0 := by
    simpa [Finset.card_eq_zero] using hne
  rw [if_neg hcard, Finset.inter_eq_right.mpr hsub,
    div_self (by exact_mod_cast hcard)]

/-- When the result shares no keyword with the topic, the lexical
similarity is 0. -/
theorem similarity_eq_zero {t : Topic} {r : SearchResult}
    (hdisj : resultKeywordSet r ∩ topicKeywordSet t = ∅) :
    similarity t r = 0 := by
  unfold similarity
  by_cases hc : (topicKeywordSet t).card = 0
  · rw [if_pos hc]
  · rw [if_neg hc, hdisj]
    simp

/-- C4 (counterexample): at threshold exactly 1.0 — which the claim
covers via "every similarity threshold ≤ 1.0" — a result of similarity
1.0 is routed to *fresh generation*, because the code requires the
similarity to strictly exceed the threshold
(`if similarity > self.similarity_threshold`). -/
theorem C4_counterexample :
    similarity ⟨["bitcoin"], "finance", 9⟩ ⟨"id1", "T", "bitcoin rises"⟩ = 1 ∧
    checkExistingContent 1 ⟨["bitcoin"], "finance", 9⟩ [⟨"id1", "T", "bitcoin rises"⟩] =
      none := by
  have hs : similarity ⟨["bitcoin"], "finance", 9⟩ ⟨"id1", "T", "bitcoin rises"⟩ = 1 :=
    similarity_eq_one (by decide) (by decide)
  refine ⟨hs, ?_⟩
  simp only [checkExistingContent, List.find?, hs]
  norm_num

/-- C4 (amended): the gate routes to reuse exactly when some result's
similarity *strictly* exceeds the threshold: a similarity-1.0 result
forces the reuse path for every threshold strictly below 1.0 (at
threshold 1.0 it does not); results sharing no keywords (similarity 0)
always route to fresh generation for any non-negative threshold; and a
result whose first 100 body words contain all of a non-empty topic
keyword set has similarity exactly 1. -/
theorem C4_similarity_routing :
    (∀ (thr : ℚ) (t : Topic) (rs : List SearchResult),
      thr < 1 → (∃ r ∈ rs, similarity t r = 1) →
        (checkExistingContent thr t rs).isSome = true) ∧
    (∀ (thr : ℚ) (t : Topic) (rs : List SearchResult),
      0 ≤ thr → (∀ r ∈ rs, similarity t r = 0) →
        checkExistingContent thr t rs = none) ∧
    (∀ (t : Topic) (r : SearchResult),
      topicKeywordSet t ≠ ∅ → topicKeywordSet t ⊆ resultKeywordSet r →
        similarity t r = 1) := by
  refine ⟨fun thr t rs h1 h2 => ?_, fun thr t rs h0 hz => ?_,
    fun t r hne hsub => similarity_eq_one hne hsub⟩
  · rcases h2 with ⟨r, hr, hsim⟩
    have hne : rs.find? (fun r' => decide (thr < similarity t r')) ≠ none := by
      intro hnone
      have := List.find?_eq_none.mp hnone r hr
      rw [hsim] at this
      simp at this
      exact absurd h1 (not_lt.mpr this)
    unfold checkExistingContent
    cases hfind : rs.find? (fun r' => decide (thr < similarity t r')) with
    | none => exact absurd hfind hne
    | some r' => rfl
  · unfold checkExistingContent
    have hnone : rs.find? (fun r' => decide (thr < similarity t r')) = none := by
      apply List.find?_eq_none.mpr
      intro r hr
      rw [hz r hr]
      simp only [decide_eq_true_eq]
      exact not_lt.mpr h0
    rw [hnone]

/-- C4 (witness for the amended theorem: a full-overlap result is
reused at the default threshold 0.8, a zero-overlap result is not). -/
theorem C4_similarity_routing_witness :
    (checkExistingContent 0.8 ⟨["bitcoin"], "finance", 9⟩
      [⟨"id1", "T", "bitcoin rises"⟩]).isSome = true ∧
    checkExistingContent 0.8 ⟨["bitcoin"], "finance", 9⟩
      [⟨"id2", "T", "ethereum falls"⟩] = none ∧
    similarity ⟨["bitcoin"], "finance", 9⟩ ⟨"id1", "T", "bitcoin rises"⟩ = 1 :=
  ⟨C4_similarity_routing.1 0.8 ⟨["bitcoin"], "finance", 9⟩ [⟨"id1", "T", "bitcoin rises"⟩]
      (by norm_num)
      ⟨⟨"id1", "T", "bitcoin rises"⟩, by simp,
        C4_similarity_routing.2.2 ⟨["bitcoin"], "finance", 9⟩ ⟨"id1", "T", "bitcoin rises"⟩
          (by decide) (by decide)⟩,
   C4_similarity_routing.2.1 0.8 ⟨["bitcoin"], "finance", 9⟩ [⟨"id2", "T", "ethereum falls"⟩]
      (by norm_num)
      (by intro r hr
          simp only [List.mem_singleton] at hr
          subst hr
          exact similarity_eq_zero (by decide)),
   C4_similarity_routing.2.2 ⟨["bitcoin"], "finance", 9⟩ ⟨"id1", "T", "bitcoin rises"⟩
      (by decide) (by decide)⟩

/-! ### Cache lemmas (C6, C7) -/

theorem lookupKey_cons {V : Type} (p : String × CacheEntry V)
    (rest : List (String × CacheEntry V)) (k : String) :
    lookupKey (p :: rest) k = if p.1 = k then some p.2 else lookupKey rest k := by
  by_cases h : p.1 = k
  · have hb : (p.1 == k) = true := beq_iff_eq.mpr h
    simp [lookupKey, List.find?, hb, h]
  · have hb : (p.1 == k) = false := beq_eq_false_iff_ne.mpr h
    simp [lookupKey, List.find?, hb, h]

theorem lookupKey_eq_none_iff {V : Type} :
    ∀ (c : List (String × CacheEntry V)) (k : String),
      lookupKey c k = none ↔ k ∉ c.map Prod.fst
  | [], k => by simp [lookupKey]
  | p :: rest, k => by
    rw [lookupKey_cons]
    by_cases h : p.1 = k
    · simp [h]
    · simp [h, lookupKey_eq_none_iff rest k, Ne.symm h]

theorem lookupKey_setEntry_self {V : Type} :
    ∀ (c : List (String × CacheEntry V)) (k : String) (e : CacheEntry V),
      lookupKey (setEntry c k e) k = some e
  | [], k, e => by simp [setEntry, lookupKey_cons]
  | p :: rest, k, e => by
    by_cases h : p.1 = k
    · simp [setEntry, h, lookupKey_cons]
    · simp [setEntry, h, lookupKey_cons, lookupKey_setEntry_self rest k e]

theorem mem_keys_setEntry {V : Type} :
    ∀ (c : List (String × CacheEntry V)) (k : String) (e : CacheEntry V) (k' : String),
      k' ∈ (setEntry c k e).map Prod.fst → k' = k ∨ k' ∈ c.map Prod.fst
  | [], k, e, k' => by simp [setEntry]
  | p :: rest, k, e, k' => by
    intro hm
    by_cases h : p.1 = k
    · rw [setEntry, if_pos h] at hm
      simp only [List.map_cons, List.mem_cons] at hm
      rcases hm with rfl | hm
      · exact Or.inl rfl
      · exact Or.inr (List.mem_cons_of_mem _ hm)
    · rw [setEntry, if_neg h] at hm
      simp only [List.map_cons, List.mem_cons] at hm
      rcases hm with rfl | hm
      · exact Or.inr (by simp)
      · rcases mem_keys_setEntry rest k e k' hm with h' | h'
        · exact Or.inl h'
        · exact Or.inr (by simp [h'])

theorem mem_keys_setEntry_of_mem {V : Type} :
    ∀ (c : List (String × CacheEntry V)) (k : String) (e : CacheEntry V) (k' : String),
      k' ∈ c.map Prod.fst → k' ∈ (setEntry c k e).map Prod.fst
  | [], _, _, _ => by simp
  | p :: rest, k, e, k' => by
    intro hm
    simp only [List.map_cons, List.mem_cons] at hm
    by_cases h : p.1 = k
    · rw [setEntry, if_pos h]
      simp only [List.map_cons, List.mem_cons]
      rcases hm with rfl | hm
      · exact Or.inl h
      · exact Or.inr hm
    · rw [setEntry, if_neg h]
      simp only [List.map_cons, List.mem_cons]
      rcases hm with rfl | hm
      · exact Or.inl rfl
      · exact Or.inr (mem_keys_setEntry_of_mem rest k e k' hm)

theorem key_mem_setEntry {V : Type} :
    ∀ (c : List (String × CacheEntry V)) (k : String) (e : CacheEntry V),
      k ∈ (setEntry c k e).map Prod.fst
  | [], k, e => by simp [setEntry]
  | p :: rest, k, e => by
    by_cases h : p.1 = k
    · rw [setEntry, if_pos h]
      simp
    · rw [setEntry, if_neg h]
      simp only [List.map_cons, List.mem_cons]
      exact Or.inr (key_mem_setEntry rest k e)

theorem length_setEntry_mem {V : Type} :
    ∀ (c : List (String × CacheEntry V)) (k : String) (e : CacheEntry V),
      k ∈ c.map Prod.fst → (setEntry c k e).length = c.length
  | [], k, e => by simp
  | p :: rest, k, e => by
    intro hm
    by_cases h : p.1 = k
    · rw [setEntry, if_pos h]
      simp
    · rw [setEntry, if_neg h]
      simp only [List.map_cons, List.mem_cons] at hm
      rcases hm with rfl | hm
      · exact absurd rfl h
      · simp only [List.length_cons]
        exact congrArg (· + 1) (length_setEntry_mem rest k e hm)

theorem length_setEntry_not_mem {V : Type} :
    ∀ (c : List (String × CacheEntry V)) (k : String) (e : CacheEntry V),
      k ∉ c.map Prod.fst → (setEntry c k e).length = c.length + 1
  | [], k, e => by simp [setEntry]
  | p :: rest, k, e => by
    intro hk
    simp only [List.map_cons, List.mem_cons, not_or] at hk
    have hne : p.1 ≠ k := fun he => hk.1 he.symm
    rw [setEntry, if_neg hne]
    simp only [List.length_cons]
    exact congrArg (· + 1) (length_setEntry_not_mem rest k e hk.2)

theorem nodup_keys_setEntry {V : Type} :
    ∀ (c : List (String × CacheEntry V)) (k : String) (e : CacheEntry V),
      (c.map Prod.fst).Nodup → ((setEntry c k e).map Prod.fst).Nodup
  | [], k, e, _ => by simp [setEntry]
  | p :: rest, k, e, hnd => by
    simp only [List.map_cons, List.nodup_cons] at hnd
    by_cases h : p.1 = k
    · simp only [setEntry, if_pos h, List.map_cons, List.nodup_cons]
      exact ⟨h ▸ hnd.1, hnd.2⟩
    · simp only [setEntry, if_neg h, List.map_cons, List.nodup_cons]
      refine ⟨fun hm => ?_, nodup_keys_setEntry rest k e hnd.2⟩
      rcases mem_keys_setEntry rest k e p.1 hm with h' | h'
      · exact h h'
      · exact hnd.1 h'

theorem mem_keys_removeKey {V : Type} :
    ∀ (c : List (String × CacheEntry V)) (k k' : String),
      k' ∈ (removeKey c k).map Prod.fst → k' ∈ c.map Prod.fst
  | [], _, _ => by simp [removeKey]
  | p :: rest, k, k' => by
    by_cases h : p.1 = k
    · simp only [removeKey, if_pos h, List.map_cons, List.mem_cons]
      exact fun hm => Or.inr hm
    · simp only [removeKey, if_neg h, List.map_cons, List.mem_cons]
      rintro (rfl | hm)
      · exact Or.inl rfl
      · exact Or.inr (mem_keys_removeKey rest k k' hm)

theorem mem_keys_removeKey_of_ne {V : Type} :
    ∀ (c : List (String × CacheEntry V)) (k k' : String),
      k' ∈ c.map Prod.fst → k' ≠ k → k' ∈ (removeKey c k).map Prod.fst
  | [], _, _ => by simp
  | p :: rest, k, k' => by
    intro hm hne
    by_cases h : p.1 = k
    · simp only [removeKey, if_pos h]
      simp only [List.map_cons, List.mem_cons] at hm
      rcases hm with rfl | hm
      · exact absurd h hne
      · exact hm
    · simp only [removeKey, if_neg h, List.map_cons, List.mem_cons]
      simp only [List.map_cons, List.mem_cons] at hm
      rcases hm with rfl | hm
      · exact Or.inl rfl
      · exact Or.inr (mem_keys_removeKey_of_ne rest k k' hm hne)

theorem nodup_keys_removeKey {V : Type} :
    ∀ (c : List (String × CacheEntry V)) (k : String),
      (c.map Prod.fst).Nodup → ((removeKey c k).map Prod.fst).Nodup
  | [], _, _ => by simp [removeKey]
  | p :: rest, k, hnd => by
    simp only [List.map_cons, List.nodup_cons] at hnd
    by_cases h : p.1 = k
    · simp only [removeKey, if_pos h]
      exact hnd.2
    · simp only [removeKey, if_neg h, List.map_cons, List.nodup_cons]
      exact ⟨fun hm => hnd.1 (mem_keys_removeKey rest k p.1 hm),
        nodup_keys_removeKey rest k hnd.2⟩

theorem length_removeKey_mem {V : Type} :
    ∀ (c : List (String × CacheEntry V)) (k : String),
      k ∈ c.map Prod.fst → (removeKey c k).length + 1 = c.length
  | [], _ => by simp
  | p :: rest, k => by
    by_cases h : p.1 = k
    · simp [removeKey, h]
    · simp only [removeKey, if_neg h, List.map_cons, List.mem_cons, List.length_cons]
      rintro (rfl | hm)
      · exact absurd rfl h
      · exact congrArg (· + 1) (length_removeKey_mem rest k hm)

theorem lookupKey_removeKey_self {V : Type} :
    ∀ (c : List (String × CacheEntry V)) (k : String),
      (c.map Prod.fst).Nodup → lookupKey (removeKey c k) k = none
  | [], _, _ => rfl
  | p :: rest, k, hnd => by
    simp only [List.map_cons, List.nodup_cons] at hnd
    by_cases h : p.1 = k
    · simp only [removeKey, if_pos h]
      exact (lookupKey_eq_none_iff rest k).mpr (h ▸ hnd.1)
    · rw [removeKey, if_neg h, lookupKey_cons, if_neg h]
      exact lookupKey_removeKey_self rest k hnd.2

theorem minCreated_cons {V : Type} (q : String × CacheEntry V)
    (rest : List (String × CacheEntry V)) :
    minCreated (q :: rest) =
      match minCreated rest with
      | none => some q
      | some q' => if q'.2.created_at < q.2.created_at then some q' else some q := rfl

theorem minCreated_eq_none_iff {V : Type} (c : List (String × CacheEntry V)) :
    minCreated c = none ↔ c = [] := by
  cases c with
  | nil => simp [minCreated]
  | cons q rest =>
    cases hm : minCreated rest with
    | none => simp [minCreated_cons, hm]
    | some q' =>
      by_cases hlt : q'.2.created_at < q.2.created_at <;>
        simp [minCreated_cons, hm, hlt]

theorem minCreated_mem {V : Type} :
    ∀ (c : List (String × CacheEntry V)) (p : String × CacheEntry V),
      minCreated c = some p → p ∈ c
  | [], p => by simp [minCreated]
  | q :: rest, p => by
    intro h
    cases hm : minCreated rest with
    | none =>
      rw [minCreated_cons, hm] at h
      simp only [Option.some.injEq] at h
      exact h ▸ List.mem_cons_self _ _
    | some q' =>
      rw [minCreated_cons, hm] at h
      have h' : (if q'.2.created_at < q.2.created_at then some q' else some q) = some p := h
      by_cases hlt : q'.2.created_at < q.2.created_at
      · rw [if_pos hlt] at h'
        simp only [Option.some.injEq] at h'
        exact List.mem_cons_of_mem _ (minCreated_mem rest p (h' ▸ hm))
      · rw [if_neg hlt] at h'
        simp only [Option.some.injEq] at h'
        exact h' ▸ List.mem_cons_self _ _

theorem minCreated_le {V : Type} :
    ∀ (c : List (String × CacheEntry V)) (p : String × CacheEntry V),
      minCreated c = some p → ∀ q ∈ c, p.2.created_at ≤ q.2.created_at
  | [], p => by simp [minCreated]
  | q :: rest, p => by
    intro h r hr
    cases hm : minCreated rest with
    | none =>
      rw [minCreated_cons, hm] at h
      simp only [Option.some.injEq] at h
      subst h
      have hrest : rest = [] := (minCreated_eq_none_iff rest).mp hm
      subst hrest
      rcases List.mem_cons.mp hr with rfl | hr'
      · exact le_refl _
      · simp at hr'
    | some q' =>
      rw [minCreated_cons, hm] at h
      have h' : (if q'.2.created_at < q.2.created_at then some q' else some q) = some p := h
      by_cases hlt : q'.2.created_at < q.2.created_at
      · rw [if_pos hlt] at h'
        simp only [Option.some.injEq] at h'
        subst h'
        rcases List.mem_cons.mp hr with rfl | hr'
        · exact le_of_lt hlt
        · exact minCreated_le rest q' hm r hr'
      · rw [if_neg hlt] at h'
        simp only [Option.some.injEq] at h'
        subst h'
        rcases List.mem_cons.mp hr with rfl | hr'
        · exact le_refl _
        · exact le_trans (not_lt.mp hlt) (minCreated_le rest q' hm r hr')

theorem minCreated_isSome {V : Type} (c : List (String × CacheEntry V)) (h : c ≠ []) :
    (minCreated c).isSome = true := by
  cases hm : minCreated c with
  | none => exact absurd ((minCreated_eq_none_iff c).mp hm) h
  | some p => rfl

theorem lookupKey_setEntry_ne {V : Type} :
    ∀ (c : List (String × CacheEntry V)) (k : String) (e : CacheEntry V) (k' : String),
      k' ≠ k → lookupKey (setEntry c k e) k' = lookupKey c k'
  | [], k, e, k', hne => by
    show lookupKey [(k, e)] k' = lookupKey [] k'
    rw [lookupKey_cons, if_neg (Ne.symm hne)]
  | p :: rest, k, e, k', hne => by
    by_cases h : p.1 = k
    · rw [setEntry, if_pos h, lookupKey_cons, lookupKey_cons]
      rw [if_neg (Ne.symm hne), if_neg (h ▸ Ne.symm hne : ¬ p.1 = k')]
    · rw [setEntry, if_neg h, lookupKey_cons, lookupKey_cons]
      by_cases h' : p.1 = k'
      · rw [if_pos h', if_pos h']
      · rw [if_neg h', if_neg h', lookupKey_setEntry_ne rest k e k' hne]

/-- `MemoryBackend.set` leaves the capacity unchanged. -/
theorem evict_max_size {V : Type} (s : MemoryBackend V) :
    s.evict_lru.max_size = s.max_size := by
  unfold MemoryBackend.evict_lru
  cases minCreated s.cache <;> rfl

theorem set_max_size {V : Type} (s : MemoryBackend V) (key : String) (v : V)
    (ttl now : ℕ) : (s.set key v ttl now).max_size = s.max_size := by
  unfold MemoryBackend.set
  by_cases h : s.max_size ≤ s.cache.length ∧ (lookupKey s.cache key).isNone = true
  · rw [if_pos h]
    exact evict_max_size s
  · rw [if_neg h]

/-- After a `set`, looking the key up finds exactly the written entry. -/
theorem set_lookup_self {V : Type} (s : MemoryBackend V) (key : String) (v : V)
    (ttl now : ℕ) :
    lookupKey (s.set key v ttl now).cache key =
      some ⟨v, now, if ttl = 0 then none else some (now + ttl), 0⟩ :=
  lookupKey_setEntry_self _ key _

/-- `set` preserves key distinctness. -/
theorem set_keys_nodup {V : Type} (s : MemoryBackend V) (key : String) (v : V)
    (ttl now : ℕ) (hwf : (s.cache.map Prod.fst).Nodup) :
    ((s.set key v ttl now).cache.map Prod.fst).Nodup := by
  refine nodup_keys_setEntry _ key _ ?_
  by_cases h : s.max_size ≤ s.cache.length ∧ (lookupKey s.cache key).isNone = true
  · show (((if s.max_size ≤ s.cache.length ∧ (lookupKey s.cache key).isNone = true
        then s.evict_lru else s).cache).map Prod.fst).Nodup
    rw [if_pos h]
    unfold MemoryBackend.evict_lru
    cases minCreated s.cache with
    | none => exact hwf
    | some p => exact nodup_keys_removeKey _ _ hwf
  · show (((if s.max_size ≤ s.cache.length ∧ (lookupKey s.cache key).isNone = true
        then s.evict_lru else s).cache).map Prod.fst).Nodup
    rw [if_neg h]
    exact hwf

/-- A single `set` keeps the hot tier within its capacity. -/
theorem set_length_le {V : Type} (s : MemoryBackend V) (key : String) (v : V)
    (ttl now : ℕ) (hle : s.cache.length ≤ s.max_size) (hpos : 1 ≤ s.max_size) :
    (s.set key v ttl now).cache.length ≤ s.max_size := by
  by_cases hmem : key ∈ s.cache.map Prod.fst
  · have hcond : ¬ (s.max_size ≤ s.cache.length ∧ (lookupKey s.cache key).isNone = true) := by
      rintro ⟨-, hnone⟩
      rw [Option.isNone_iff_eq_none, lookupKey_eq_none_iff] at hnone
      exact hnone hmem
    show (setEntry (if s.max_size ≤ s.cache.length ∧ (lookupKey s.cache key).isNone = true
        then s.evict_lru else s).cache key _).length ≤ s.max_size
    rw [if_neg hcond, length_setEntry_mem _ _ _ hmem]
    exact hle
  · by_cases hfull : s.max_size ≤ s.cache.length
    · have hcond : s.max_size ≤ s.cache.length ∧ (lookupKey s.cache key).isNone = true :=
        ⟨hfull, by rw [Option.isNone_iff_eq_none, lookupKey_eq_none_iff]; exact hmem⟩
      show (setEntry (if s.max_size ≤ s.cache.length ∧ (lookupKey s.cache key).isNone = true
          then s.evict_lru else s).cache key _).length ≤ s.max_size
      rw [if_pos hcond]
      have hne : s.cache ≠ [] := by
        intro h0
        rw [h0] at hfull
        simp at hfull
        omega
      cases hm : minCreated s.cache with
      | none => exact absurd ((minCreated_eq_none_iff s.cache).mp hm) hne
      | some p =>
        have hpmem : p.1 ∈ s.cache.map Prod.fst :=
          List.mem_map_of_mem Prod.fst (minCreated_mem s.cache p hm)
        have hlen : (removeKey s.cache p.1).length + 1 = s.cache.length :=
          length_removeKey_mem s.cache p.1 hpmem
        have hkey : key ∉ (removeKey s.cache p.1).map Prod.fst :=
          fun hmem' => hmem (mem_keys_removeKey s.cache p.1 key hmem')
        show (setEntry s.evict_lru.cache key _).length ≤ s.max_size
        unfold MemoryBackend.evict_lru
        rw [hm]
        rw [length_setEntry_not_mem _ _ _ hkey, hlen]
        exact hle
    · have hcond : ¬ (s.max_size ≤ s.cache.length ∧ (lookupKey s.cache key).isNone = true) :=
        fun hc => hfull hc.1
      show (setEntry (if s.max_size ≤ s.cache.length ∧ (lookupKey s.cache key).isNone = true
          then s.evict_lru else s).cache key _).length ≤ s.max_size
      rw [if_neg hcond, length_setEntry_not_mem _ _ _ hmem]
      omega

/-- A sequence of `set` operations, as issued against the hot tier. -/
def applyOps {V : Type} (s : MemoryBackend V) : List (String × V × ℕ × ℕ) → MemoryBackend V
  | [] => s
  | op :: ops => applyOps (s.set op.1 op.2.1 op.2.2.1 op.2.2.2) ops

theorem applyOps_max_size {V : Type} :
    ∀ (ops : List (String × V × ℕ × ℕ)) (s : MemoryBackend V),
      (applyOps s ops).max_size = s.max_size
  | [], s => rfl
  | op :: ops, s => by
    rw [applyOps, applyOps_max_size ops, set_max_size]

theorem applyOps_length_le {V : Type} :
    ∀ (ops : List (String × V × ℕ × ℕ)) (s : MemoryBackend V),
      s.cache.length ≤ s.max_size → 1 ≤ s.max_size →
      (applyOps s ops).cache.length ≤ s.max_size
  | [], s, hle, _ => hle
  | op :: ops, s, hle, hpos => by
    rw [applyOps]
    have h1 := set_length_le s op.1 op.2.1 op.2.2.1 op.2.2.2 hle hpos
    have h2 := set_max_size s op.1 op.2.1 op.2.2.1 op.2.2.2
    have := applyOps_length_le ops (s.set op.1 op.2.1 op.2.2.1 op.2.2.2)
      (h2 ▸ h1) (h2 ▸ hpos)
    rwa [h2] at this

/-- C6 (counterexample): a value set at instant 0 with `ttl = 5` is
still returned by `get` at the boundary instant `now = 5`: the code
treats an entry as expired only when `datetime.now()` is *strictly*
past `expires_at`, so the claim's "absent at t = T" is false. -/
theorem C6_counterexample :
    (((MemoryBackend.mk ([] : List (String × CacheEntry ℕ)) 1000).set
        "k" 42 5 0).get "k" 5).1 = some 42 := by decide

/-- C6 (amended): in the hot tier a value set with `ttl = T > 0` at
instant `t₀` is returned by `get` at every instant `now ≤ t₀ + T`
(boundary included), and is reported absent and purged at every instant
`now > t₀ + T`. -/
theorem C6_cache_ttl {V : Type} (s : MemoryBackend V) (key : String) (v : V)
    (T t₀ now : ℕ) (hT : 0 < T) (hwf : (s.cache.map Prod.fst).Nodup) :
    (now ≤ t₀ + T → ((s.set key v T t₀).get key now).1 = some v) ∧
    (t₀ + T < now →
      ((s.set key v T t₀).get key now).1 = none ∧
      lookupKey (((s.set key v T t₀).get key now).2).cache key = none) := by
  have hT0 : ¬ T = 0 := Nat.pos_iff_ne_zero.mp hT
  have hlook : lookupKey (s.set key v T t₀).cache key =
      some ⟨v, t₀, some (t₀ + T), 0⟩ := by
    rw [set_lookup_self, if_neg hT0]
  constructor
  · intro hnow
    simp only [MemoryBackend.get, hlook]
    rw [if_neg (not_lt.mpr hnow)]
  · intro hnow
    simp only [MemoryBackend.get, hlook]
    rw [if_pos hnow]
    refine ⟨rfl, ?_⟩
    exact lookupKey_removeKey_self _ key (set_keys_nodup s key v T t₀ hwf)

/-- C6 (witness for the amended theorem: value present at the boundary
instant 5, absent and purged at instant 6). -/
theorem C6_cache_ttl_witness :
    (((MemoryBackend.mk ([] : List (String × CacheEntry ℕ)) 1000).set
        "k" 42 5 0).get "k" 5).1 = some 42 ∧
    (((MemoryBackend.mk ([] : List (String × CacheEntry ℕ)) 1000).set
        "k" 42 5 0).get "k" 6).1 = none :=
  ⟨(C6_cache_ttl (MemoryBackend.mk [] 1000) "k" 42 5 0 5 (by norm_num)
      (by decide)).1 (by norm_num),
   ((C6_cache_ttl (MemoryBackend.mk [] 1000) "k" 42 5 0 6 (by norm_num)
      (by decide)).2 (by norm_num)).1⟩

/-- C7: the hot tier never exceeds `max_size` entries under any
sequence of `set` operations (for any positive capacity, starting
empty), and an overflow insert — a new key arriving while the tier is
full — keeps the size at `max_size`, evicts exactly the entry with the
earliest `created_at` among those present (the first-minimal one the
code's `min` picks), keeps every other present key, and stores the new
key. -/
theorem C7_eviction_bound {V : Type} :
    (∀ (m : ℕ) (ops : List (String × V × ℕ × ℕ)), 1 ≤ m →
      (applyOps (MemoryBackend.mk [] m) ops).cache.length ≤ m) ∧
    (∀ (s : MemoryBackend V) (key : String) (v : V) (ttl now : ℕ),
      (s.cache.map Prod.fst).Nodup →
      s.cache.length = s.max_size → 1 ≤ s.max_size →
      key ∉ s.cache.map Prod.fst →
      (minCreated s.cache).isSome = true ∧
      (∀ p, minCreated s.cache = some p →
        (s.set key v ttl now).cache.length = s.max_size ∧
        (∀ q ∈ s.cache, p.2.created_at ≤ q.2.created_at) ∧
        lookupKey (s.set key v ttl now).cache p.1 = none ∧
        (∀ k' ∈ s.cache.map Prod.fst, k' ≠ p.1 →
          k' ∈ (s.set key v ttl now).cache.map Prod.fst) ∧
        key ∈ (s.set key v ttl now).cache.map Prod.fst)) := by
  constructor
  · intro m ops hm
    exact applyOps_length_le ops (MemoryBackend.mk [] m) (by simp) hm
  · intro s key v ttl now hwf hfull hpos hnew
    have hne : s.cache ≠ [] := by
      intro h0
      rw [h0] at hfull
      simp at hfull
      omega
    refine ⟨minCreated_isSome s.cache hne, fun p hp => ?_⟩
    have hcond : s.max_size ≤ s.cache.length ∧ (lookupKey s.cache key).isNone = true :=
      ⟨le_of_eq hfull.symm,
        by rw [Option.isNone_iff_eq_none, lookupKey_eq_none_iff]; exact hnew⟩
    have hpmem : p.1 ∈ s.cache.map Prod.fst :=
      List.mem_map_of_mem Prod.fst (minCreated_mem s.cache p hp)
    have hpk : p.1 ≠ key := fun he => hnew (he ▸ hpmem)
    have hcache : (s.set key v ttl now).cache =
        setEntry (removeKey s.cache p.1) key
          ⟨v, now, if ttl = 0 then none else some (now + ttl), 0⟩ := by
      show setEntry (if s.max_size ≤ s.cache.length ∧
            (lookupKey s.cache key).isNone = true
          then s.evict_lru else s).cache key _ = _
      rw [if_pos hcond]
      unfold MemoryBackend.evict_lru
      rw [hp]
    refine ⟨?_, minCreated_le s.cache p hp, ?_, ?_, ?_⟩
    · rw [hcache]
      have hkey : key ∉ (removeKey s.cache p.1).map Prod.fst :=
        fun hmem' => hnew (mem_keys_removeKey s.cache p.1 key hmem')
      rw [length_setEntry_not_mem _ _ _ hkey,
        length_removeKey_mem s.cache p.1 hpmem]
      exact hfull
    · rw [hcache, lookupKey_setEntry_ne _ _ _ _ hpk]
      exact lookupKey_removeKey_self s.cache p.1 hwf
    · intro k' hk' hkne
      rw [hcache]
      exact mem_keys_setEntry_of_mem _ _ _ _
        (mem_keys_removeKey_of_ne s.cache p.1 k' hk' hkne)
    · rw [hcache]
      exact key_mem_setEntry _ _ _

/-- C7 (witness: capacity 2, three distinct keys inserted at increasing
instants; the overflow insert of "c" evicts the earliest-created "a"
and keeps "b" and "c", with the size staying at 2). -/
theorem C7_eviction_bound_witness :
    (applyOps (MemoryBackend.mk ([] : List (String × CacheEntry ℕ)) 2)
      [("a", 1, 0, 0), ("b", 2, 0, 1), ("c", 3, 0, 2)]).cache.length ≤ 2 ∧
    ((MemoryBackend.mk
        [("a", ⟨1, 0, none, 0⟩), ("b", ⟨2, 1, none, 0⟩)] 2).set "c" 3 0 2).cache.length = 2 ∧
    lookupKey ((MemoryBackend.mk
        ([("a", ⟨1, 0, none, 0⟩), ("b", ⟨2, 1, none, 0⟩)] :
          List (String × CacheEntry ℕ)) 2).set "c" 3 0 2).cache "a" = none ∧
    "b" ∈ ((MemoryBackend.mk
        ([("a", ⟨1, 0, none, 0⟩), ("b", ⟨2, 1, none, 0⟩)] :
          List (String × CacheEntry ℕ)) 2).set "c" 3 0 2).cache.map Prod.fst ∧
    "c" ∈ ((MemoryBackend.mk
        ([("a", ⟨1, 0, none, 0⟩), ("b", ⟨2, 1, none, 0⟩)] :
          List (String × CacheEntry ℕ)) 2).set "c" 3 0 2).cache.map Prod.fst := by
  have h2 := (C7_eviction_bound.2 (MemoryBackend.mk
      ([("a", ⟨1, 0, none, 0⟩), ("b", ⟨2, 1, none, 0⟩)] :
        List (String × CacheEntry ℕ)) 2) "c" 3 0 2
      (by decide) (by decide) (by decide) (by decide)).2
      ("a", ⟨1, 0, none, 0⟩) (by decide)
  exact ⟨C7_eviction_bound.1 2 [("a", 1, 0, 0), ("b", 2, 0, 1), ("c", 3, 0, 2)]
      (by norm_num),
    h2.1, h2.2.2.1, h2.2.2.2.1 "b" (by decide) (by decide), h2.2.2.2.2⟩

/-! ### Workflow result lemmas (C8) -/

/-- The top-5 trending selection is empty exactly when the deduplicated
candidate set is empty. -/
theorem trending_isEmpty_iff (l : List Topic) :
    (((l.insertionSort byTrendDesc).take 5).isEmpty = true) ↔ l = [] := by
  rw [List.isEmpty_iff]
  constructor
  · intro h
    rcases List.take_eq_nil_iff.mp h with h5 | hs
    · exact absurd h5 (by norm_num)
    · have hperm := List.perm_insertionSort byTrendDesc l
      rw [hs] at hperm
      exact (List.Perm.symm hperm).eq_nil
  · intro h
    subst h
    rfl

/-- C8 (counterexample): when the candidate set is empty — one of the
failure modes the claim itself cites — `run_daily_generation` returns a
failure result whose `metrics` field is `None`, *not* the partial
metrics: the early return at `content_workflow.py:73-77` builds the
`WorkflowResult` without passing `metrics`. -/
theorem C8_counterexample :
    (run_daily_generation Stats.init [] [] (fun _ st => .ok st)).success = false ∧
    (run_daily_generation Stats.init [] [] (fun _ st => .ok st)).error_message =
      some "No trending topics found" ∧
    (run_daily_generation Stats.init [] [] (fun _ st => .ok st)).metrics = none :=
  ⟨rfl, rfl, rfl⟩

/-- C8 (amended): every failing run returns a structured
`WorkflowResult` with `success = false` and an error message rather
than propagating an exception; a failure raised inside the pipeline
(any exception after topic analysis) carries the partial statistics
accumulated up to the raise, but the empty-candidate-set failure
returns `metrics = None` — no partial metrics. A run reports
`success = true` exactly when the pipeline completes. -/
theorem C8_failure_reporting (stats₀ : Stats) (kb coll : List Topic)
    (pipeline : List Topic → Stats → Except (String × Stats) Stats) :
    (dedupTopics (kb ++ coll) = [] →
      run_daily_generation stats₀ kb coll pipeline =
        ⟨false, some "No trending topics found", none, 0⟩) ∧
    (∀ (e : String) (statsE : Stats),
      dedupTopics (kb ++ coll) ≠ [] →
      pipeline (((dedupTopics (kb ++ coll)).insertionSort byTrendDesc).take 5)
          { stats₀ with topics_analyzed := (dedupTopics (kb ++ coll)).length } =
        .error (e, statsE) →
      run_daily_generation stats₀ kb coll pipeline = ⟨false, some e, some statsE, 0⟩) ∧
    (∀ stats₂ : Stats,
      dedupTopics (kb ++ coll) ≠ [] →
      pipeline (((dedupTopics (kb ++ coll)).insertionSort byTrendDesc).take 5)
          { stats₀ with topics_analyzed := (dedupTopics (kb ++ coll)).length } =
        .ok stats₂ →
      run_daily_generation stats₀ kb coll pipeline =
        ⟨true, none, some stats₂, stats₂.total_cost⟩) := by
  refine ⟨fun h => ?_, fun e statsE hne hpip => ?_, fun stats₂ hne hpip => ?_⟩
  · simp only [run_daily_generation]
    rw [if_pos ((trending_isEmpty_iff _).mpr h)]
  · simp only [run_daily_generation]
    rw [if_neg (fun hc => hne ((trending_isEmpty_iff _).mp hc))]
    simp only [hpip]
  · simp only [run_daily_generation]
    rw [if_neg (fun hc => hne ((trending_isEmpty_iff _).mp hc))]
    simp only [hpip]

/-- C8 (witness: a pipeline failure reports the partial stats gathered
before the raise; the empty-candidate run reports no metrics). -/
theorem C8_failure_reporting_witness :
    run_daily_generation Stats.init [⟨["a"], "c", 5⟩] []
        (fun _ st => .error ("boom", st)) =
      ⟨false, some "boom", some ⟨1, 0, 0, 0, 0⟩, 0⟩ ∧
    run_daily_generation Stats.init [] [] (fun _ st => .ok st) =
      ⟨false, some "No trending topics found", none, 0⟩ :=
  ⟨(C8_failure_reporting Stats.init [⟨["a"], "c", 5⟩] []
      (fun _ st => .error ("boom", st))).2.1 "boom" ⟨1, 0, 0, 0, 0⟩
      (by simp [dedupTopics, dedupLoop])
      (by simp [dedupTopics, dedupLoop, Stats.init]),
   (C8_failure_reporting Stats.init [] [] (fun _ st => .ok st)).1 rfl⟩

end Soup
